import Mathlib

/-!
Verification development for the alphaconf configuration library.

The embedding models the configuration tree ("omegaconf" `DictConfig` data),
the merge/select layer, and the operations of
`alphaconf/internal/configuration.py`, `alphaconf/internal/application.py`
and the module-level `alphaconf/__init__.py`.

The omegaconf and pydantic libraries are external dependencies whose code is
not part of this repository; the few primitives the code calls
(`OmegaConf.merge`, `OmegaConf.select`, the pydantic field introspection) are
modelled from the specification, with a doc comment marking each such
definition.  Everything else is translated directly from the Python source.
-/

namespace Alphaconf

/-- Configuration tree value: the nested data held by an omegaconf
`DictConfig`.  Scalars, `null`, the mandatory marker `'???'` (`missing`) and
string-keyed mappings with insertion order preserved. -/
inductive CVal where
  | str (s : String)
  | int (n : Int)
  | bool (b : Bool)
  | null
  | missing
  | dict (entries : List (String × CVal))

mutual
/-- Decidable equality for `CVal` (the automatic deriving does not handle the
nested `List` occurrence). -/
def CVal.deq : (a b : CVal) → Decidable (a = b)
  | .str s, .str t =>
      match String.decEq s t with
      | isTrue h => isTrue (by rw [h])
      | isFalse h => isFalse (by intro hh; cases hh; exact h rfl)
  | .int m, .int n =>
      match decEq m n with
      | isTrue h => isTrue (by rw [h])
      | isFalse h => isFalse (by intro hh; cases hh; exact h rfl)
  | .bool m, .bool n =>
      match Bool.decEq m n with
      | isTrue h => isTrue (by rw [h])
      | isFalse h => isFalse (by intro hh; cases hh; exact h rfl)
  | .null, .null => isTrue rfl
  | .missing, .missing => isTrue rfl
  | .dict a, .dict b =>
      match CVal.deqEntries a b with
      | isTrue h => isTrue (by rw [h])
      | isFalse h => isFalse (by intro hh; cases hh; exact h rfl)
  | .str _, .int _ => isFalse (by intro h; cases h)
  | .str _, .bool _ => isFalse (by intro h; cases h)
  | .str _, .null => isFalse (by intro h; cases h)
  | .str _, .missing => isFalse (by intro h; cases h)
  | .str _, .dict _ => isFalse (by intro h; cases h)
  | .int _, .str _ => isFalse (by intro h; cases h)
  | .int _, .bool _ => isFalse (by intro h; cases h)
  | .int _, .null => isFalse (by intro h; cases h)
  | .int _, .missing => isFalse (by intro h; cases h)
  | .int _, .dict _ => isFalse (by intro h; cases h)
  | .bool _, .str _ => isFalse (by intro h; cases h)
  | .bool _, .int _ => isFalse (by intro h; cases h)
  | .bool _, .null => isFalse (by intro h; cases h)
  | .bool _, .missing => isFalse (by intro h; cases h)
  | .bool _, .dict _ => isFalse (by intro h; cases h)
  | .null, .str _ => isFalse (by intro h; cases h)
  | .null, .int _ => isFalse (by intro h; cases h)
  | .null, .bool _ => isFalse (by intro h; cases h)
  | .null, .missing => isFalse (by intro h; cases h)
  | .null, .dict _ => isFalse (by intro h; cases h)
  | .missing, .str _ => isFalse (by intro h; cases h)
  | .missing, .int _ => isFalse (by intro h; cases h)
  | .missing, .bool _ => isFalse (by intro h; cases h)
  | .missing, .null => isFalse (by intro h; cases h)
  | .missing, .dict _ => isFalse (by intro h; cases h)
  | .dict _, .str _ => isFalse (by intro h; cases h)
  | .dict _, .int _ => isFalse (by intro h; cases h)
  | .dict _, .bool _ => isFalse (by intro h; cases h)
  | .dict _, .null => isFalse (by intro h; cases h)
  | .dict _, .missing => isFalse (by intro h; cases h)

/-- Decidable equality for entry lists, mutual part of `CVal.deq`. -/
def CVal.deqEntries : (a b : List (String × CVal)) → Decidable (a = b)
  | [], [] => isTrue rfl
  | [], _ :: _ => isFalse (by intro h; cases h)
  | _ :: _, [] => isFalse (by intro h; cases h)
  | (k, v) :: r, (k', v') :: r' =>
      match String.decEq k k', CVal.deq v v', CVal.deqEntries r r' with
      | isTrue h1, isTrue h2, isTrue h3 => isTrue (by rw [h1, h2, h3])
      | isFalse h1, _, _ => isFalse (by intro hh; cases hh; exact h1 rfl)
      | _, isFalse h2, _ => isFalse (by intro hh; cases hh; exact h2 rfl)
      | _, _, isFalse h3 => isFalse (by intro hh; cases hh; exact h3 rfl)
end

instance : DecidableEq CVal := CVal.deq

/-- Whether a tree value is a mapping node. -/
def CVal.isDict : CVal → Bool
  | .dict _ => true
  | _ => false

/-- Whether a tree value is the mandatory marker `'???'`. -/
def CVal.isMissing : CVal → Bool
  | .missing => true
  | _ => false

/-- First value bound to key `k` in an entry list (Python `dict` lookup;
entry lists of well-formed trees have unique keys). -/
def lookupE : String → List (String × CVal) → Option CVal
  | _, [] => none
  | k, (k', v) :: rest => if k' = k then some v else lookupE k rest

/-- Top-level keys of a tree (empty for non-mapping nodes). -/
def topKeys : CVal → List String
  | .dict es => es.map (fun kv => kv.1)
  | _ => []

/-- Top-level lookup in a tree: `conf.get(k)` on a `DictConfig`. -/
def lookupD (c : CVal) (k : String) : Option CVal :=
  match c with
  | .dict es => lookupE k es
  | _ => none

/-- Python `name in conf` membership test on a `DictConfig`. -/
def keyMem (k : String) (c : CVal) : Bool :=
  (lookupD c k).isSome

mutual
/-- Modelled from the spec: `OmegaConf.merge` of two trees (omegaconf is an
external dependency, its code is not under `src/`).  Spec 4.2: mapping and
mapping merge recursively key by key (union of keys, later wins on conflict
for non-mapping values); any other pairing replaces wholesale with the later
value, last writer wins, including the `MandatoryMarker` case. -/
def merge2 : CVal → CVal → CVal
  | .dict a, .dict b =>
      .dict (mergeEntries a b ++ b.filter (fun kv => (lookupE kv.1 a).isNone))
  | _, b => b

/-- Entry-wise part of `merge2`: the entries of the earlier mapping, with
values overridden (or recursively merged) by the later mapping. -/
def mergeEntries : List (String × CVal) → List (String × CVal) → List (String × CVal)
  | [], _ => []
  | (k, v) :: rest, b =>
      (k, match lookupE k b with
          | some w => merge2 v w
          | none => v) :: mergeEntries rest b
end

/-- Modelled from the spec: the n-ary `OmegaConf.merge(c, *configs)` combines
an ordered sequence of trees left to right, later sources overriding earlier
ones (spec 2. Merge Engine, 4.2). -/
def mergeList (c : CVal) (configs : List CVal) : CVal :=
  configs.foldl merge2 c

/-- Character-level split of a key on `'.'` (Python `str.split('.')`;
`""` splits to `[""]`). -/
def splitDotsAux : List Char → String → List String
  | [], acc => [acc]
  | c :: cs, acc => if c = '.' then acc :: splitDotsAux cs "" else splitDotsAux cs (acc.push c)

/-- Split a dotted key into its path components. -/
def splitDots (s : String) : List String :=
  splitDotsAux s.toList ""

/-- Python `'.' in k`: whether a key contains a dot. -/
def hasDot (s : String) : Bool :=
  s.toList.contains '.'

/-- Path components used by `OmegaConf.select`: the empty key selects the
root, otherwise the key is split on dots. -/
def keyParts (k : String) : List String :=
  if k = "" then [] else splitDots k

/-- Walk a tree along a list of path components. -/
def selectParts : CVal → List String → Option CVal
  | c, [] => some c
  | .dict es, p :: rest =>
      match lookupE p es with
      | some v => selectParts v rest
      | none => none
  | _, _ :: _ => none

/-- Select a dotted key in a tree. -/
def selectT (c : CVal) (key : String) : Option CVal :=
  selectParts c (keyParts key)

/-- Python-level exceptions the modelled operations can raise. -/
inductive PyErr where
  | keyError (key : String)
  | keyErrorType (id : Nat)
  | missingMandatoryValue (key : String)
  | attributeError
  | typeError
  | valueError
  deriving DecidableEq

/-- Modelled from the spec: `OmegaConf.select(cfg, key, default=d)` (external
omegaconf dependency, not under `src/`).  Spec 4.4(b): path-based read
returning the sub-node or the not-found `default`, never raising for plain
absence.  A node holding the mandatory marker `'???'` also yields the
`default`; it raises `MissingMandatoryValue` only when `throw_on_missing` is
set, as in the module-level `Application.get_config`
(`src/alphaconf/__init__.py:130` passes `throw_on_missing=True` explicitly).
The model returns `none` for the supplied default sentinel. -/
def omegaSelect (c : CVal) (key : String) (throwOnMissing : Bool) :
    Except PyErr (Option CVal) :=
  match selectParts c (keyParts key) with
  | none => .ok none
  | some v =>
      if v.isMissing then
        if throwOnMissing then .error (.missingMandatoryValue key) else .ok none
      else .ok (some v)

/-- Python `'.'.join(parts)`. -/
def joinDots (parts : List String) : String :=
  String.intercalate "." parts

mutual
/-- Modelled from the spec: the missing-mandatory check performed by
`OmegaConf.to_object` (external omegaconf dependency, not under `src/`).
Spec 4.3 and 7: resolving a tree that still holds a `MandatoryMarker` fails
with `MissingMandatoryValue` naming the failing key path; this returns the
dotted path of the first marker in the tree, if any. -/
def firstMissing : CVal → Option (List String)
  | .missing => some []
  | .dict es => firstMissingE es
  | _ => none

/-- Entry-list part of `firstMissing`. -/
def firstMissingE : List (String × CVal) → Option (List String)
  | [] => none
  | (k, v) :: rest =>
      match firstMissing v with
      | some p => some (k :: p)
      | none => firstMissingE rest
end

/-- String-key branch of `Configuration.get`
(`src/alphaconf/internal/configuration.py:74`): select with the
`raise_on_missing` sentinel as select-default; when the sentinel comes back,
raise `KeyError` unless the caller gave a default.  A selected container is
converted with `OmegaConf.to_object` (configuration.py:93), which raises
`MissingMandatoryValue` naming the first `'???'` node left in the sub-tree;
the subsequent `convert_to_type` (external converters and pydantic
validation) is modelled as the identity on the converted tree, and the
`isinstance(value, type)` early return for container-typed requests is not
modelled (the claims request pydantic types or no type). -/
def configGet (c : CVal) (key : String) (default : Option CVal) : Except PyErr CVal :=
  match omegaSelect c key false with
  | .error e => .error e
  | .ok none =>
      match default with
      | none => .error (.keyError key)
      | some d => .ok d
  | .ok (some v) =>
      if v.isDict then
        match firstMissing v with
        | some p => .error (.missingMandatoryValue (joinDots p))
        | none => .ok v
      else .ok v

/-- Whether a source tree leaves the path `ps` alone when merged on top:
it does not provide a value at `ps`, and every value it provides at a
proper ancestor of `ps` is a mapping (a non-mapping ancestor would replace
the whole sub-tree wholesale). -/
def skipsPathB (y : CVal) (ps : List String) : Bool :=
  ((List.range ps.length).all (fun n =>
    match selectParts y (ps.take n) with
    | some w => w.isDict
    | none => true))
  && (selectParts y ps).isNone

/-- Loop of `Configuration._find_name`
(`src/alphaconf/internal/configuration.py:196`): `name` accumulates the
`'_'`-join of the parts consumed so far (`""` before the first one); the
loop returns as soon as the accumulated join is a key of `conf`, recursing
into a mapping value with the remaining parts (the recursive
`_find_name(parts[next_offset:], sub_conf)` call is inlined so that the
recursion is structural on the parts); `none` means the loop fell through
without any match. -/
def findNameGo : CVal → String → List String → Option String
  | _, _, [] => none
  | conf, name, p :: rest =>
      let name' := if name = "" then p else name ++ "_" ++ p
      if keyMem name' conf then
        some (if rest.isEmpty then name'
          else match lookupD conf name' with
            | some (.dict es) =>
                name' ++ "." ++
                  (if rest.length < 2 then String.join rest
                   else match findNameGo (.dict es) "" rest with
                     | some r => r
                     | none => joinDots rest)
            | _ => joinDots (name' :: rest))
      else findNameGo conf name' rest

/-- `Configuration._find_name(parts, conf)`
(`src/alphaconf/internal/configuration.py:191`): find a dotted name from
parts, trying to join consumed parts with `'_'` and returning as soon as the
accumulated join is a key of the current tree; when no accumulated join
matches, all parts are joined with `'.'`. -/
def find_name (parts : List String) (conf : CVal) : String :=
  if parts.length < 2 then String.join parts
  else
    match findNameGo conf "" parts with
    | some r => r
    | none => joinDots parts

/-- `Configuration.__add_prefix(config, pfx)`
(`src/alphaconf/internal/configuration.py:277`): wrap a config under the
dotted path `pfx`, one mapping per path component, innermost last. -/
def addPfx (config : CVal) (pfx : String) : CVal :=
  (splitDots pfx).foldr (fun part acc => .dict [(part, acc)]) config

/-- Final step of `Configuration.__prepare_dictconfig`
(`src/alphaconf/internal/configuration.py:219`): keys containing a dot are
popped from the mapping and re-added as nested sub-configs via
`__add_prefix`, then merged back (`OmegaConf.unsafe_merge` is the external
in-place variant of merge; when no key was popped the mapping is returned
as-is, which the merge with an empty list also yields). -/
def finishDC (es : List (String × CVal)) : CVal :=
  let kept := es.filter (fun kv => !hasDot kv.1)
  let subs := (es.filter (fun kv => hasDot kv.1)).map (fun kv => addPfx kv.2 kv.1)
  mergeList (.dict kept) subs

mutual
/-- Value preparation of `Configuration.__prepare_config`
(`src/alphaconf/internal/configuration.py:226`) restricted to tree data:
mappings are recursively prepared and their dotted keys normalized
(`__prepare_dictconfig`), scalars pass through.  Pydantic schema arguments
are handled separately in `Configuration.setup_configuration` below. -/
def prepareCfg : CVal → CVal
  | .dict es => finishDC (prepareEntries es)
  | v => v

/-- The per-entry recursion of `Configuration.__prepare_dictconfig`
(`src/alphaconf/internal/configuration.py:214`): each value is prepared with
`__prepare_config`; inside a `DictConfig` this mutates nested mappings in
place, so the prepared value is what the caller's entry holds afterwards. -/
def prepareEntries : List (String × CVal) → List (String × CVal)
  | [] => []
  | (k, v) :: rest => (k, prepareCfg v) :: prepareEntries rest
end

/-- `Configuration.__prepare_dictconfig(obj, path, recursive)`
(`src/alphaconf/internal/configuration.py:210`): with `recursive` the values
are first prepared, then dotted keys are normalized; with `recursive=False`
(used for freshly built plain dicts whose values are already prepared) only
the dotted keys are normalized. -/
def prepareDictconfig (recursive : Bool) : CVal → CVal
  | .dict es => finishDC (if recursive then prepareEntries es else es)
  | v => v

mutual
/-- Modelled from the spec: a pydantic model class (pydantic is an external
dependency, not under `src/`).  Spec 4.4: a structured schema is a record
type with typed fields, defaults and required markers; the capability
interface is {field list, field default, field required, field description,
field type}. -/
inductive PydModel where
  | mk (fields : List PydField)

/-- Modelled from the spec: one schema field.  `default = none` stands for
pydantic's `_Unset`; `sub` is the field's nested model type when its
annotation is itself a structured schema, `none` for plain annotations. -/
inductive PydField where
  | mk (name : String) (default : Option CVal) (required : Bool)
      (description : Option String) (sub : Option PydModel)
end

/-- Field name accessor. -/
def PydField.name : PydField → String
  | .mk n _ _ _ _ => n

/-- Field default accessor (`none` = no default, pydantic `_Unset`). -/
def PydField.default : PydField → Option CVal
  | .mk _ d _ _ _ => d

/-- Field required accessor (`field.is_required()`). -/
def PydField.required : PydField → Bool
  | .mk _ _ r _ _ => r

/-- Field description accessor (`field.description or field.title`). -/
def PydField.description : PydField → Option String
  | .mk _ _ _ d _ => d

/-- Nested model type of the field's annotation, when any. -/
def PydField.sub : PydField → Option PydModel
  | .mk _ _ _ _ s => s

/-- Python truthiness `bool(v)` of a tree value, used by
`__prepare_pydantic` as `check_type = not bool(defaults[k])`. -/
def cvTruthy : CVal → Bool
  | .str s => s ≠ ""
  | .int n => n ≠ 0
  | .bool b => b
  | .null => false
  | .missing => true
  | .dict es => !es.isEmpty

mutual
/-- `Configuration.__prepare_pydantic` on a model class
(`src/alphaconf/internal/configuration.py:242`): returns the derived default
entries (field with explicit default, `'???'` when required without default,
`None` otherwise) and the helper descriptions collected via `add_helper`
(the field's description at `path + k`, plus, when the checked annotation is
itself a model, the nested model's helpers at `path + k + "."`; the nested
call's defaults are discarded exactly as in the source).  The `SecretStr`
mask registration is display-only and not modelled. -/
def prepare_pydantic : PydModel → String → List (String × CVal) × List (String × String)
  | .mk fields, path => preparePydFields fields path

/-- Per-field loop of `__prepare_pydantic`.  In the source the loop computes
the default entry `defaults[k]` and the flag `check_type` together
(`check_type` is `not bool(defaults[k])` for an explicit default and `True`
in both no-default branches); here they are two parallel reads of the same
field. -/
def preparePydFields : List PydField → String → List (String × CVal) × List (String × String)
  | [], _ => ([], [])
  | .mk name default required description sub :: rest, path =>
      let dv : CVal :=
        match default with
        | some d => d
        | none => if required then CVal.missing else CVal.null
      let checkType : Bool :=
        match default with
        | some d => !cvTruthy d
        | none => true
      let descHelpers :=
        match description with
        | some d => [(path ++ name, d)]
        | none => []
      let subHelpers :=
        if checkType then
          match sub with
          | some m => (prepare_pydantic m (path ++ name ++ ".")).2
          | none => []
        else []
      ((name, dv) :: (preparePydFields rest path).1,
        descHelpers ++ subHelpers ++ (preparePydFields rest path).2)
end

/-- Association-list update with Python `dict` semantics: replace in place
when the key exists, else append. -/
def setAssoc {α β : Type} [DecidableEq α] : List (α × β) → α → β → List (α × β)
  | [], k, v => [(k, v)]
  | (k', v') :: rest, k, v =>
      if k' = k then (k, v) :: rest else (k', v') :: setAssoc rest k v

/-- Association-list lookup (`dict.get`). -/
def lookupAssoc {α β : Type} [DecidableEq α] : List (α × β) → α → Option β
  | [], _ => none
  | (k', v) :: rest, k => if k' = k then some v else lookupAssoc rest k

/-- Python `dict.update`: apply each new binding in order. -/
def updateAssoc {α β : Type} [DecidableEq α] (l news : List (α × β)) : List (α × β) :=
  news.foldl (fun acc kv => setAssoc acc kv.1 kv.2) l

/-- Python `str.endswith('.')`: whether the last character is a dot. -/
def endsWithDot (s : String) : Bool :=
  s.toList.getLast? == some '.'

/-- Python `str.rstrip('.')`: drop all trailing dots. -/
def rstripDots (s : String) : String :=
  String.mk ((s.toList.reverse.dropWhile (fun c => c == '.')).reverse)

/-- Identity of a pydantic class object (`type`), abstracted to a number. -/
abbrev TypeId := Nat

/-- Decidable equality for modelled Python results. -/
instance {ε α : Type} [DecidableEq ε] [DecidableEq α] : DecidableEq (Except ε α) :=
  fun x y =>
    match x, y with
    | .ok a, .ok b =>
        match decEq a b with
        | isTrue h => isTrue (by rw [h])
        | isFalse h => isFalse (by intro hh; cases hh; exact h rfl)
    | .error a, .error b =>
        match decEq a b with
        | isTrue h => isTrue (by rw [h])
        | isFalse h => isFalse (by intro hh; cases hh; exact h rfl)
    | .ok _, .error _ => isFalse (by intro h; cases h)
    | .error _, .ok _ => isFalse (by intro h; cases h)

/-- Runtime state of the private `Configuration.__type_value` attribute.
It is declared `MutableMapping[type, Any]` and starts as a `dict`, but
`__get_type` assigns `self.__type_value = value`, after which the attribute
holds the resolved value itself (`clobbered`). -/
inductive TVState where
  | tdict (m : List (TypeId × CVal))
  | clobbered (v : CVal)
  deriving DecidableEq

/-- The `Configuration` facade state
(`src/alphaconf/internal/configuration.py:30`): tree `c`, registered type
paths, the type-value cache attribute, and helper descriptions. -/
structure Configuration where
  c : CVal
  typePath : List (TypeId × Option String)
  typeValue : TVState
  helpers : List (String × String)
  deriving DecidableEq

/-- A fresh `Configuration()` (no parent): empty tree, maps and cache. -/
def Configuration.new : Configuration :=
  { c := .dict [], typePath := [], typeValue := .tdict [], helpers := [] }

/-- `self.__type_value.pop(conf_type, None)`: removal on the cache dict; on
the clobbered attribute (a resolved model instance) Python raises
`AttributeError` since the instance has no `pop`. -/
def tvPop (id : TypeId) : TVState → Except PyErr TVState
  | .tdict m => .ok (.tdict (m.filter (fun kv => kv.1 ≠ id)))
  | .clobbered _ => .error .attributeError

/-- Argument universe of `Configuration.setup_configuration`: a
`DictConfig`, a pydantic model class, a pydantic model instance (with its
`model_dump(mode="json")` tree), or plain native data. -/
inductive ConfArg where
  | dc (t : CVal)
  | typ (id : TypeId) (m : PydModel)
  | inst (id : TypeId) (m : PydModel) (dump : CVal)
  | raw (t : CVal)

/-- `Configuration.setup_configuration(conf, helpers, prefix=...)`
(`src/alphaconf/internal/configuration.py:120`): register the schema type
binding (first registration stores the raw key-path, a repeated one stores
`None`) and drop its cached value; append a dot to a non-empty key-path;
prepare the configuration (normalizing dotted keys, deriving pydantic
defaults and helper descriptions); wrap it under the key-path; merge it into
`c`; and update the helper descriptions.  The deprecated string branch is
not modelled.  No validation is performed on the `helpers` argument. -/
def Configuration.setup_configuration (st : Configuration) (conf : ConfArg)
    (helpers : List (String × String)) (pfx : String) : Except PyErr Configuration := do
  let confType : Option TypeId :=
    match conf with
    | .typ id _ => some id
    | .inst id _ _ => some id
    | _ => none
  let st ←
    match confType with
    | some id => do
        let newPath : Option String :=
          if (lookupAssoc st.typePath id).isSome then none else some pfx
        let tv ← tvPop id st.typeValue
        pure { st with typePath := setAssoc st.typePath id newPath, typeValue := tv }
    | none => pure st
  let pfx' := if pfx ≠ "" ∧ !endsWithDot pfx then pfx ++ "." else pfx
  let (config, pydHelpers) ←
    match conf with
    | .dc t => pure (prepareDictconfig true t, ([] : List (String × String)))
    | .typ _ m =>
        let (ds, hs) := prepare_pydantic m pfx'
        pure (prepareCfg (.dict ds), hs)
    | .inst _ m dump =>
        let hs := (prepare_pydantic m pfx').2
        let cfg := prepareCfg dump
        if cfg.isDict then pure (cfg, hs) else .error .typeError
    | .raw t =>
        let cfg := prepareCfg t
        if cfg.isDict then pure (cfg, ([] : List (String × String))) else .error .typeError
  let (config, helpers) :=
    if pfx ≠ "" then
      (addPfx config (rstripDots pfx'), helpers.map (fun kv => (pfx' ++ kv.1, kv.2)))
    else (config, helpers)
  let st := { st with helpers := updateAssoc st.helpers pydHelpers }
  let st := { st with c := merge2 st.c config }
  pure { st with helpers := updateAssoc st.helpers helpers }

/-- `Configuration.__get_type(key, default)`
(`src/alphaconf/internal/configuration.py:98`), the type-keyed branch of
`Configuration.get`: read the `__type_value` attribute with `.get(key)`
(an `AttributeError` once the attribute holds a resolved model instance,
which has no `.get`); on a cache miss, look up the registered key-path
(`None` both for an unregistered and for an ambiguous type) and either fail
with `KeyError` / return the default, or resolve via the string-key `get`
and then assign `self.__type_value = value`, replacing the cache dict by the
value itself.  The pydantic validation `convert_to_type(value, key)` is
external and modelled as the identity on the selected sub-tree. -/
def Configuration.getType (st : Configuration) (id : TypeId) (default : Option CVal) :
    Except PyErr (CVal × Configuration) :=
  match st.typeValue with
  | .clobbered _ => .error .attributeError
  | .tdict m =>
      match lookupAssoc m id with
      | some v => .ok (v, st)
      | none =>
          match lookupAssoc st.typePath id with
          | none | some none =>
              match default with
              | none => .error (.keyErrorType id)
              | some d => .ok (d, st)
          | some (some keyStr) =>
              match configGet st.c keyStr none with
              | .ok v => .ok (v, { st with typeValue := .clobbered v })
              | .error (.keyError k) =>
                  match default with
                  | none => .error (.keyError k)
                  | some d => .ok (d, st)
              | .error e => .error e

/-- `Application._get_configurations`
(`src/alphaconf/internal/application.py:103`): the generator yields, in this
fixed order, the registered default configuration (`self.__config.c`), the
application metadata configuration, the configuration trees loaded from the
existing files, the environment-derived fragment (when prefixes apply), and
finally the command-line fragments from the parse result. -/
def Application.getConfigurations (defaultC appC : CVal) (files : List CVal)
    (envFrag : Option CVal) (cli : List CVal) : List CVal :=
  [defaultC, appC] ++ files ++ envFrag.toList ++ cli

/-- The merge step of `Application.setup_configuration`
(`src/alphaconf/internal/application.py:155`): the new configuration's tree
(branched from the registered defaults) is merged with everything
`_get_configurations` yields, in order. -/
def Application.setupConfiguration (defaultC appC : CVal) (files : List CVal)
    (envFrag : Option CVal) (cli : List CVal) : CVal :=
  mergeList defaultC (Application.getConfigurations defaultC appC files envFrag cli)

/-- Module-level `setup_configuration(conf, helpers, testing=None)` of the
older facade (`src/alphaconf/__init__.py:451`), restricted to the default
`testing=None` path: the configuration is appended to the registered
defaults first, then each helper key's first dotted segment is checked
against the top-level keys of `conf` (`ValueError` on the first failure, in
which case the helper map is left untouched), and finally the helper
descriptions are updated. -/
def moduleSetupConfiguration (configs : List CVal) (helpersState : List (String × String))
    (conf : CVal) (helpers : List (String × String)) :
    Except PyErr (List CVal × List (String × String)) :=
  let configs' := configs ++ [conf]
  match helpers.find? (fun kv => !keyMem (splitDots kv.1).headI conf) with
  | some _ => .error .valueError
  | none => .ok (configs', updateAssoc helpersState helpers)

mutual
/-- A configuration tree with an explicit identity on every node, used to
express aliasing: two nodes are the same Python object exactly when they
carry the same id. -/
inductive ITree where
  | leaf (id : Nat) (v : CVal)
  | node (id : Nat) (entries : IEntries)

/-- Entry list of identified trees (mutual with `ITree` for recursion). -/
inductive IEntries where
  | nil
  | cons (k : String) (t : ITree) (rest : IEntries)
end

/-- All node ids occurring in an identified tree. -/
def ITree.ids : ITree → List Nat
  | .leaf id _ => [id]
  | .node id es => id :: idsEntries es
where
  /-- Ids of an entry list. -/
  idsEntries : IEntries → List Nat
  | .nil => []
  | .cons _ t rest => t.ids ++ idsEntries rest

/-- Forget the identities, keeping the tree contents. -/
def ITree.strip : ITree → CVal
  | .leaf _ v => v
  | .node _ es => .dict (stripEntries es)
where
  /-- Contents of an entry list. -/
  stripEntries : IEntries → List (String × CVal)
  | .nil => []
  | .cons k t rest => (k, t.strip) :: stripEntries rest

/-- In-place mutation: overwrite the node carrying id `i` (wherever it
occurs) with the scalar `v`, leaving every other node untouched. -/
def ITree.setById (t : ITree) (i : Nat) (v : CVal) : ITree :=
  match t with
  | .leaf id w => if id = i then .leaf id v else .leaf id w
  | .node id es => if id = i then .leaf id v else .node id (setEntries es)
where
  /-- Mutation inside an entry list. -/
  setEntries : IEntries → IEntries
  | .nil => .nil
  | .cons k t' rest => .cons k (t'.setById i v) (setEntries rest)

mutual
/-- Rebuild a tree as freshly allocated identified nodes, ids counting up
from `n`; returns the tree and the next free id. -/
def labelTree : CVal → Nat → ITree × Nat
  | .dict es, n =>
      let (l, n') := labelEntries es (n + 1)
      (.node n l, n')
  | v, n => (.leaf n v, n + 1)

/-- Entry-list part of `labelTree`. -/
def labelEntries : List (String × CVal) → Nat → IEntries × Nat
  | [], n => (.nil, n)
  | (k, v) :: rest, n =>
      let (t, n') := labelTree v n
      let (l, n'') := labelEntries rest n'
      (.cons k t l, n'')
end

/-- Modelled from the spec: `OmegaConf.merge(A, B)` at the object level
(omegaconf is external, not under `src/`).  Spec 4.2 and 8: merge does not
mutate its input trees and the result has copy-on-write semantics, so the
returned tree consists of freshly allocated nodes whose contents are the
merge of the inputs' contents; `n` is a fresh-id supply above every id live
in the heap. -/
def mergeAlloc (a b : ITree) (n : Nat) : ITree :=
  (labelTree (merge2 a.strip b.strip) n).1

/-- The `'_'`-join accumulated by the loop of `_find_name`: starting from
`name`, each consumed part is appended with a `'_'` separator (or taken
verbatim when the accumulator is still empty). -/
def underJoin (name : String) (parts : List String) : String :=
  parts.foldl (fun acc p => if acc = "" then p else acc ++ "_" ++ p) name

/-- Tree of the reference test `test_env_find_name_complex`: keys `a`,
`my_test` (a mapping) and `test_test` (a mapping containing `my_test`). -/
def envTestTree : CVal :=
  .dict [("a", .dict [("b", .int 1)]),
    ("my_test", .dict [("a", .int 2)]),
    ("test_test", .dict [("x", .int 3), ("my_test", .int 4)])]

/-- A tree holding both the key `my` (a mapping) and the key `my_test`, so
that the shortest and the longest existing-key match differ. -/
def envShortTree : CVal :=
  .dict [("my", .dict [("x", .int 1)]), ("my_test", .dict [("a", .int 2)])]

/-- Tree with the mandatory marker at `req` (spec scenario `{"req": MANDATORY}`). -/
def mandatoryTree : CVal := .dict [("req", .missing)]

/-- Precedence counterexample trees: the key `k` maps to a mapping in both
the first and the third source. -/
def precATree : CVal := .dict [("k", .dict [("x", .int 1)])]

/-- Middle source without the key `k`. -/
def precBTree : CVal := .dict []

/-- Last source mapping `k` to a mapping with a different sub-key. -/
def precCTree : CVal := .dict [("k", .dict [("y", .int 2)])]

/-- End-to-end scenario: registered defaults. -/
def serverDefaults : CVal := .dict [("server", .dict [("url", .str "http://default")])]

/-- End-to-end scenario: file fragment. -/
def serverFile : CVal := .dict [("server", .dict [("url", .str "http://file")])]

/-- End-to-end scenario: environment fragment. -/
def serverEnv : CVal := .dict [("server", .dict [("url", .str "http://env")])]

/-- End-to-end scenario: command-line fragment `server.url=http://cli`. -/
def serverCli : CVal := .dict [("server", .dict [("url", .str "http://cli")])]

/-- End-to-end scenario: application metadata configuration. -/
def appMeta : CVal := .dict [("application", .dict [("name", .str "app")])]

/-- Registered defaults giving the key `server` a mapping value with two
sub-keys. -/
def precedenceDefaults : CVal :=
  .dict [("server", .dict [("url", .str "u"), ("port", .int 1)])]

/-- A later file fragment also setting the key `server`, to a mapping with
only one sub-key. -/
def precedenceFileFrag : CVal := .dict [("server", .dict [("port", .int 2)])]

/-- An environment fragment that does not touch the `server` sub-tree. -/
def envOther : CVal := .dict [("other", .int 7)]

/-- Schema with an explicit default (`x_name`, described), a numeric default
(`x_num: int = 0`), a required field without default (`x_req`) and an
optional field without default (`x_opt`). -/
def schemaTyped : PydModel :=
  .mk [.mk "x_name" (some (.str "me")) true (some "Some name") none,
    .mk "x_num" (some (.int 0)) true none none,
    .mk "x_req" none true none none,
    .mk "x_opt" none false none none]

/-- Fields of `schemaTyped`. -/
def schemaTypedFields : List PydField :=
  [.mk "x_name" (some (.str "me")) true (some "Some name") none,
    .mk "x_num" (some (.int 0)) true none none,
    .mk "x_req" none true none none,
    .mk "x_opt" none false none none]

/-- Configuration after registering `schemaTyped` as a schema type. -/
def typedState1 : Configuration :=
  match Configuration.setup_configuration Configuration.new (.typ 0 schemaTyped) [] "" with
  | .ok s => s
  | .error _ => Configuration.new

/-- `typedState1` after merging the override `{"x_num": 1}`. -/
def typedState2 : Configuration :=
  match Configuration.setup_configuration typedState1 (.raw (.dict [("x_num", .int 1)])) [] "" with
  | .ok s => s
  | .error _ => Configuration.new

/-- Schema with only defaulted or optional fields (the shape of the test
suite's `TypedConfig`), whose derived tree holds no mandatory marker, so a
type-keyed `get` can resolve it. -/
def schemaTypedOpt : PydModel :=
  .mk [.mk "x_name" (some (.str "me")) true (some "Some name") none,
    .mk "x_num" (some (.int 0)) true none none,
    .mk "x_opt" none false none none]

/-- Configuration after registering `schemaTypedOpt` as a schema type. -/
def typedGetState1 : Configuration :=
  match Configuration.setup_configuration Configuration.new (.typ 0 schemaTypedOpt) [] "" with
  | .ok s => s
  | .error _ => Configuration.new

/-- `typedGetState1` after merging the override `{"x_num": 1}`. -/
def typedGetState2 : Configuration :=
  match Configuration.setup_configuration typedGetState1
      (.raw (.dict [("x_num", .int 1)])) [] "" with
  | .ok s => s
  | .error _ => Configuration.new

/-- A configuration with the type `0` registered at path `p` and an intact
(empty) type-value cache dict. -/
def memoState : Configuration :=
  { c := .dict [("p", .dict [("x", .int 1)])], typePath := [(0, some "p")],
    typeValue := .tdict [], helpers := [] }

/-- `memoState` after the first type-keyed `get`: the cache attribute now
holds the resolved value itself. -/
def memoClobbered : Configuration :=
  match Configuration.getType memoState 0 none with
  | .ok (_, s) => s
  | .error _ => Configuration.new

/-- Configuration for the helper-validation scenario: top-level key `a`
exists but the dotted path `a.b` does not. -/
def helperConf : CVal := .dict [("a", .dict [("b0", .int 1)])]

/-- A `DictConfig` with a dotted top-level key and a dotted nested key
(`test_config_setup_dots` data). -/
def dottedTree : CVal := .dict [("a.b", .dict [("c.d", .int 1), ("two", .int 2)])]

/-- A concrete identified tree (ids 0 and 1) for the aliasing scenario. -/
def aliasTreeA : ITree := .node 0 (.cons "k" (.leaf 1 (.int 1)) .nil)

/-- A second concrete identified tree (ids 2 and 3). -/
def aliasTreeB : ITree := .node 2 (.cons "k" (.leaf 3 (.int 2)) .nil)

/-- State after registering the schema type `5` at key-path `pp`. -/
def ambigState1 : Configuration :=
  match Configuration.setup_configuration Configuration.new (.typ 5 (.mk [])) [] "pp" with
  | .ok s => s
  | .error _ => Configuration.new

/-- `ambigState1` after registering the same type again at key-path `qq`. -/
def ambigState2 : Configuration :=
  match Configuration.setup_configuration ambigState1 (.typ 5 (.mk [])) [] "qq" with
  | .ok s => s
  | .error _ => Configuration.new

/-! Lemmas about lookup and merge. -/

theorem lookupE_append (k : String) (l1 l2 : List (String × CVal)) :
    lookupE k (l1 ++ l2) =
      match lookupE k l1 with
      | some v => some v
      | none => lookupE k l2 := by
  induction l1 with
  | nil => simp [lookupE]
  | cons kv rest ih =>
      obtain ⟨k', v⟩ := kv
      by_cases h : k' = k <;> simp [lookupE, h, ih]

theorem lookupE_mergeEntries (k : String) (a b : List (String × CVal)) :
    lookupE k (mergeEntries a b) =
      (lookupE k a).map (fun v =>
        match lookupE k b with
        | some w => merge2 v w
        | none => v) := by
  induction a with
  | nil => simp [lookupE, mergeEntries]
  | cons kv rest ih =>
      obtain ⟨k', v⟩ := kv
      by_cases h : k' = k <;> simp [lookupE, mergeEntries, h, ih]

theorem lookupE_filter_keyIn (k : String) (a b : List (String × CVal)) (v : CVal)
    (h : lookupE k a = some v) :
    lookupE k (b.filter (fun kv => (lookupE kv.1 a).isNone)) = none := by
  induction b with
  | nil => simp [lookupE]
  | cons kv rest ih =>
      obtain ⟨k', w⟩ := kv
      by_cases hk : k' = k
      · subst hk
        simp [List.filter, h, lookupE, ih]
      · by_cases hmem : (lookupE k' a).isNone <;>
          simp [List.filter, hmem, lookupE, hk, ih]

theorem lookupE_filter_keyOut (k : String) (a b : List (String × CVal))
    (h : lookupE k a = none) :
    lookupE k (b.filter (fun kv => (lookupE kv.1 a).isNone)) = lookupE k b := by
  induction b with
  | nil => simp
  | cons kv rest ih =>
      obtain ⟨k', w⟩ := kv
      by_cases hk : k' = k
      · subst hk
        simp [List.filter, h, lookupE, ih]
      · by_cases hmem : (lookupE k' a).isNone <;>
          simp [List.filter, hmem, lookupE, hk, ih]

theorem lookupD_merge2_dict (k : String) (a b : List (String × CVal)) :
    lookupD (merge2 (.dict a) (.dict b)) k =
      match lookupE k a, lookupE k b with
      | some v, some w => some (merge2 v w)
      | some v, none => some v
      | none, o => o := by
  show lookupE k (mergeEntries a b ++ b.filter (fun kv => (lookupE kv.1 a).isNone)) = _
  rw [lookupE_append, lookupE_mergeEntries]
  cases ha : lookupE k a with
  | some v => cases hb : lookupE k b <;> simp [lookupE_filter_keyIn k a b v ha]
  | none => simp [lookupE_filter_keyOut k a b ha]

theorem merge2_eq_right (a b : CVal) (h : a.isDict = false ∨ b.isDict = false) :
    merge2 a b = b := by
  cases a <;> cases b <;> simp_all [CVal.isDict, merge2]

theorem selectParts_merge2_right (ps : List String) :
    ∀ (a b v : CVal), selectParts b ps = some v → v.isDict = false →
      selectParts (merge2 a b) ps = some v := by
  induction ps with
  | nil =>
      intro a b v hsel hdict
      simp only [selectParts] at hsel
      injection hsel with hbv
      subst hbv
      rw [merge2_eq_right a b (Or.inr hdict)]
      simp [selectParts]
  | cons p rest ih =>
      intro a b v hsel hdict
      cases b with
      | dict bes =>
          simp only [selectParts] at hsel
          cases hb : lookupE p bes with
          | none => rw [hb] at hsel; cases hsel
          | some w =>
              rw [hb] at hsel
              cases a with
              | dict aes =>
                  have hl := lookupD_merge2_dict p aes bes
                  simp only [merge2]
                  cases ha : lookupE p aes with
                  | none =>
                      rw [ha, hb] at hl
                      simp only [merge2] at hl
                      simp only [lookupD] at hl
                      simp only [selectParts, hl]
                      exact hsel
                  | some u =>
                      rw [ha, hb] at hl
                      simp only [merge2] at hl
                      simp only [lookupD] at hl
                      simp only [selectParts, hl]
                      exact ih u w v hsel hdict
              | str s => simpa [merge2, selectParts, hb] using hsel
              | int n => simpa [merge2, selectParts, hb] using hsel
              | bool bb => simpa [merge2, selectParts, hb] using hsel
              | null => simpa [merge2, selectParts, hb] using hsel
              | missing => simpa [merge2, selectParts, hb] using hsel
      | str s => simp [selectParts] at hsel
      | int n => simp [selectParts] at hsel
      | bool bb => simp [selectParts] at hsel
      | null => simp [selectParts] at hsel
      | missing => simp [selectParts] at hsel

theorem selectParts_mergeList_last (c : CVal) (l : List CVal) (x : CVal)
    (ps : List String) (v : CVal) (hsel : selectParts x ps = some v)
    (hdict : v.isDict = false) :
    selectParts (mergeList c (l ++ [x])) ps = some v := by
  have : mergeList c (l ++ [x]) = merge2 (mergeList c l) x := by
    simp [mergeList]
  rw [this]
  exact selectParts_merge2_right ps (mergeList c l) x v hsel hdict

theorem selectParts_merge2_skip (ps : List String) :
    ∀ (a b : CVal),
      (∀ n, n < ps.length → ∀ w, selectParts b (ps.take n) = some w → w.isDict = true) →
      selectParts b ps = none →
      selectParts (merge2 a b) ps = selectParts a ps := by
  induction ps with
  | nil =>
      intro a b _ hnone
      simp [selectParts] at hnone
  | cons p rest ih =>
      intro a b hpre hnone
      have hb : b.isDict = true :=
        hpre 0 (by simp) b (by simp [selectParts])
      cases b with
      | dict bes =>
          cases a with
          | dict aes =>
              have hm : lookupE p (mergeEntries aes bes
                    ++ bes.filter (fun kv => (lookupE kv.1 aes).isNone)) =
                  match lookupE p aes, lookupE p bes with
                  | some v, some w => some (merge2 v w)
                  | some v, none => some v
                  | none, o => o := lookupD_merge2_dict p aes bes
              simp only [selectParts] at hnone
              simp only [merge2, selectParts, hm]
              cases hbl : lookupE p bes with
              | none =>
                  cases hal : lookupE p aes <;> simp
              | some w =>
                  rw [hbl] at hnone
                  replace hnone : selectParts w rest = none := hnone
                  cases rest with
                  | nil => simp [selectParts] at hnone
                  | cons q qs =>
                      have hwskip : ∀ n, n < (q :: qs).length → ∀ u,
                          selectParts w ((q :: qs).take n) = some u → u.isDict = true := by
                        intro n hn u hu
                        refine hpre (n + 1) (by simpa using Nat.succ_lt_succ hn) u ?_
                        simp only [List.take_succ_cons, selectParts, hbl]
                        exact hu
                      cases hal : lookupE p aes with
                      | none => simpa using hnone
                      | some v =>
                          simpa using ih v w hwskip hnone
          | str s => exact hnone
          | int n => exact hnone
          | bool bb => exact hnone
          | null => exact hnone
          | missing => exact hnone
      | str s => simp [CVal.isDict] at hb
      | int n => simp [CVal.isDict] at hb
      | bool bb => simp [CVal.isDict] at hb
      | null => simp [CVal.isDict] at hb
      | missing => simp [CVal.isDict] at hb

theorem skipsPathB_spec (y : CVal) (ps : List String) (h : skipsPathB y ps = true) :
    (∀ n, n < ps.length → ∀ w, selectParts y (ps.take n) = some w → w.isDict = true)
    ∧ selectParts y ps = none := by
  simp only [skipsPathB, Bool.and_eq_true, List.all_eq_true, List.mem_range] at h
  obtain ⟨h1, h2⟩ := h
  refine ⟨?_, Option.isNone_iff_eq_none.mp h2⟩
  intro n hn w hw
  have := h1 n hn
  rw [hw] at this
  exact this

theorem selectParts_mergeList_skip (L : List CVal) (ps : List String) :
    ∀ (c : CVal), (∀ y ∈ L, skipsPathB y ps = true) →
      selectParts (mergeList c L) ps = selectParts c ps := by
  induction L with
  | nil => intro c _; rfl
  | cons x rest ih =>
      intro c hall
      have hx := skipsPathB_spec x ps (hall x (by simp))
      have hstep : mergeList c (x :: rest) = mergeList (merge2 c x) rest := by
        simp [mergeList]
      rw [hstep, ih (merge2 c x) (fun y hy => hall y (by simp [hy]))]
      exact selectParts_merge2_skip ps c x hx.1 hx.2

theorem selectParts_mergeList_middle (c : CVal) (L1 : List CVal) (x : CVal)
    (L2 : List CVal) (ps : List String) (v : CVal)
    (hsel : selectParts x ps = some v) (hdict : v.isDict = false)
    (hskip : ∀ y ∈ L2, skipsPathB y ps = true) :
    selectParts (mergeList c (L1 ++ x :: L2)) ps = some v := by
  have hstep : mergeList c (L1 ++ x :: L2) = mergeList (merge2 (mergeList c L1) x) L2 := by
    simp [mergeList, List.foldl_append]
  rw [hstep, selectParts_mergeList_skip L2 ps _ hskip]
  exact selectParts_merge2_right ps (mergeList c L1) x v hsel hdict

/-! Lemmas about dotted keys and the preparation pipeline. -/

theorem toList_push (s : String) (c : Char) : (s.push c).toList = s.toList ++ [c] := by
  cases s
  rfl

theorem splitDotsAux_ne_nil (cs : List Char) (acc : String) : splitDotsAux cs acc ≠ [] := by
  induction cs generalizing acc with
  | nil => simp [splitDotsAux]
  | cons c rest ih =>
      by_cases h : c = '.' <;> simp [splitDotsAux, h, ih]

theorem splitDots_ne_nil (s : String) : splitDots s ≠ [] :=
  splitDotsAux_ne_nil s.toList ""

theorem hasDot_of_mem_splitDotsAux (cs : List Char) :
    ∀ (acc : String) (p : String), p ∈ splitDotsAux cs acc → hasDot acc = false →
      hasDot p = false := by
  induction cs with
  | nil =>
      intro acc p hp hacc
      simp [splitDotsAux] at hp
      subst hp
      exact hacc
  | cons c rest ih =>
      intro acc p hp hacc
      by_cases h : c = '.'
      · simp only [splitDotsAux, h, if_pos rfl] at hp
        rcases List.mem_cons.mp hp with h1 | h2
        · subst h1; exact hacc
        · exact ih "" p h2 rfl
      · simp only [splitDotsAux, h, if_neg h] at hp
        refine ih (acc.push c) p hp ?_
        simp only [hasDot, toList_push, List.contains] at hacc ⊢
        simp only [List.elem_eq_mem, List.mem_append, List.mem_singleton,
          decide_eq_false_iff_not] at hacc ⊢
        rintro (hc | hc)
        · exact hacc hc
        · exact h hc.symm

theorem hasDot_of_mem_splitDots (s : String) (p : String) (hp : p ∈ splitDots s) :
    hasDot p = false :=
  hasDot_of_mem_splitDotsAux s.toList "" p hp rfl

theorem topKeys_addPfx (v : CVal) (k : String) :
    topKeys (addPfx v k) = [(splitDots k).headI] := by
  unfold addPfx
  cases h : splitDots k with
  | nil => exact absurd h (splitDots_ne_nil k)
  | cons p rest => simp [topKeys]

theorem map_fst_mergeEntries (a b : List (String × CVal)) :
    (mergeEntries a b).map (fun kv => kv.1) = a.map (fun kv => kv.1) := by
  induction a with
  | nil => simp [mergeEntries]
  | cons kv rest ih =>
      obtain ⟨k, v⟩ := kv
      simp [mergeEntries, ih]

theorem mem_topKeys_merge2 (k : String) (a b : CVal)
    (h : k ∈ topKeys (merge2 a b)) : k ∈ topKeys a ∨ k ∈ topKeys b := by
  cases a with
  | dict aes =>
      cases b with
      | dict bes =>
          simp only [merge2, topKeys, List.map_append, List.mem_append] at h
          rcases h with h1 | h2
          · rw [map_fst_mergeEntries] at h1
            exact Or.inl (by simpa [topKeys] using h1)
          · right
            simp only [List.mem_map] at h2
            obtain ⟨kv, hkv, hk⟩ := h2
            simp only [topKeys, List.mem_map]
            exact ⟨kv, List.mem_of_mem_filter hkv, hk⟩
      | str s => exact Or.inr (by simpa [merge2] using h)
      | int n => exact Or.inr (by simpa [merge2] using h)
      | bool bb => exact Or.inr (by simpa [merge2] using h)
      | null => exact Or.inr (by simpa [merge2] using h)
      | missing => exact Or.inr (by simpa [merge2] using h)
  | str s => exact Or.inr (by simpa [merge2] using h)
  | int n => exact Or.inr (by simpa [merge2] using h)
  | bool bb => exact Or.inr (by simpa [merge2] using h)
  | null => exact Or.inr (by simpa [merge2] using h)
  | missing => exact Or.inr (by simpa [merge2] using h)

theorem mem_topKeys_mergeList (k : String) (l : List CVal) :
    ∀ (c : CVal), k ∈ topKeys (mergeList c l) →
      k ∈ topKeys c ∨ ∃ x ∈ l, k ∈ topKeys x := by
  induction l with
  | nil =>
      intro c h
      exact Or.inl (by simpa [mergeList] using h)
  | cons x rest ih =>
      intro c h
      have h' := ih (merge2 c x) (by simpa [mergeList] using h)
      rcases h' with h1 | ⟨y, hy, hk⟩
      · rcases mem_topKeys_merge2 k c x h1 with h2 | h3
        · exact Or.inl h2
        · exact Or.inr ⟨x, by simp, h3⟩
      · exact Or.inr ⟨y, by simp [hy], hk⟩

theorem map_fst_prepareEntries (es : List (String × CVal)) :
    (prepareEntries es).map (fun kv => kv.1) = es.map (fun kv => kv.1) := by
  induction es with
  | nil => simp [prepareEntries]
  | cons kv rest ih =>
      obtain ⟨k, v⟩ := kv
      simp [prepareEntries, ih]

theorem isDict_addPfx (v : CVal) (k : String) : (addPfx v k).isDict = true := by
  unfold addPfx
  cases h : splitDots k with
  | nil => exact absurd h (splitDots_ne_nil k)
  | cons p rest => simp [CVal.isDict]

theorem isDict_merge2_right (a b : CVal) (hb : b.isDict = true) :
    (merge2 a b).isDict = true := by
  cases a <;> cases b <;> simp_all [merge2, CVal.isDict]

theorem isDict_mergeList (l : List CVal) :
    ∀ (c : CVal), c.isDict = true → (∀ x ∈ l, x.isDict = true) →
      (mergeList c l).isDict = true := by
  induction l with
  | nil => intro c hc _; simpa [mergeList] using hc
  | cons x rest ih =>
      intro c hc hall
      have hx : x.isDict = true := hall x (by simp)
      have : (mergeList c (x :: rest)) = mergeList (merge2 c x) rest := by
        simp [mergeList]
      rw [this]
      exact ih (merge2 c x) (isDict_merge2_right c x hx) (fun y hy => hall y (by simp [hy]))

theorem isDict_finishDC (es : List (String × CVal)) : (finishDC es).isDict = true := by
  unfold finishDC
  refine isDict_mergeList _ _ rfl ?_
  intro x hx
  simp only [List.mem_map] at hx
  obtain ⟨kv, _, hkv⟩ := hx
  exact hkv ▸ isDict_addPfx kv.2 kv.1

theorem mem_topKeys_finishDC (k : String) (es : List (String × CVal))
    (h : k ∈ topKeys (finishDC es)) : hasDot k = false := by
  unfold finishDC at h
  rcases mem_topKeys_mergeList k _ _ h with h1 | ⟨x, hx, hk⟩
  · simp only [topKeys, List.mem_map] at h1
    obtain ⟨kv, hkv, hkeq⟩ := h1
    have := List.of_mem_filter hkv
    simp only [Bool.not_eq_eq_eq_not, Bool.not_true] at this
    simpa [hkeq] using this
  · simp only [List.mem_map] at hx
    obtain ⟨kv, hkv, hxeq⟩ := hx
    rw [← hxeq, topKeys_addPfx] at hk
    simp only [List.mem_singleton] at hk
    subst hk
    have hpmem : (splitDots kv.1).headI ∈ splitDots kv.1 := by
      cases hsp : splitDots kv.1 with
      | nil => exact absurd hsp (splitDots_ne_nil kv.1)
      | cons p rest => simp
    exact hasDot_of_mem_splitDots kv.1 _ hpmem

/-! Lemmas about the loop of `Configuration._find_name`. -/

theorem underJoin_cons (name p : String) (parts : List String) :
    underJoin name (p :: parts) =
      underJoin (if name = "" then p else name ++ "_" ++ p) parts := rfl

theorem findNameGo_eq_none (l : List String) :
    ∀ (conf : CVal) (name : String),
      (∀ i, i < l.length → keyMem (underJoin name (l.take (i + 1))) conf = false) →
      findNameGo conf name l = none := by
  induction l with
  | nil => intro conf name _; rfl
  | cons p rest ih =>
      intro conf name h
      have h0 : keyMem (if name = "" then p else name ++ "_" ++ p) conf = false := by
        have := h 0 (by simp)
        simpa [underJoin] using this
      rw [findNameGo]
      simp only [h0, Bool.false_eq_true, if_false]
      refine ih conf _ ?_
      intro i hi
      have := h (i + 1) (by simpa using Nat.succ_lt_succ hi)
      simpa [List.take, underJoin_cons] using this

theorem find_name_no_match (parts : List String) (conf : CVal)
    (h : ∀ i, i < parts.length → keyMem (underJoin "" (parts.take (i + 1))) conf = false) :
    find_name parts conf = joinDots parts := by
  match parts with
  | [] => rfl
  | [a] =>
      show (if ([a] : List String).length < 2 then String.join [a] else _) = _
      rw [if_pos (by simp)]
      show String.join [a] = String.intercalate "." [a]
      simp [String.join, String.intercalate, String.intercalate.go]
  | a :: b :: rest =>
      have hlen : ¬((a :: b :: rest).length < 2) := by simp
      simp only [find_name, if_neg hlen]
      rw [findNameGo_eq_none _ conf "" h]

theorem findNameGo_first_match (l1 : List String) :
    ∀ (l2 : List String) (conf : CVal) (name : String), l1 ≠ [] →
      (∀ i, i + 1 < l1.length → keyMem (underJoin name (l1.take (i + 1))) conf = false) →
      keyMem (underJoin name l1) conf = true →
      findNameGo conf name (l1 ++ l2) = some (
        if l2.isEmpty then underJoin name l1
        else match lookupD conf (underJoin name l1) with
          | some (.dict es) => underJoin name l1 ++ "." ++ find_name l2 (.dict es)
          | _ => joinDots (underJoin name l1 :: l2)) := by
  induction l1 with
  | nil => intro l2 conf name hne _ _; exact absurd rfl hne
  | cons p rest ih =>
      intro l2 conf name _ hpre hkey
      cases rest with
      | nil =>
          have hJ : underJoin name [p] = (if name = "" then p else name ++ "_" ++ p) := rfl
          have hkey' : keyMem (if name = "" then p else name ++ "_" ++ p) conf = true := by
            rw [hJ] at hkey; exact hkey
          show findNameGo conf name (p :: l2) = _
          rw [findNameGo]
          simp only [hkey', if_true, hJ]
          congr 1
      | cons q qs =>
          have h0 : keyMem (if name = "" then p else name ++ "_" ++ p) conf = false := by
            have := hpre 0 (by simp)
            simpa [underJoin] using this
          show findNameGo conf name (p :: ((q :: qs) ++ l2)) = _
          rw [findNameGo]
          simp only [h0, Bool.false_eq_true, if_false]
          have hres := ih l2 conf (if name = "" then p else name ++ "_" ++ p)
            (by simp)
            (by
              intro i hi
              have := hpre (i + 1) (by simpa using Nat.succ_lt_succ hi)
              simpa [List.take, underJoin_cons] using this)
            (by simpa [underJoin_cons] using hkey)
          rw [hres]
          simp [underJoin_cons]

theorem find_name_first_match (l1 l2 : List String) (conf : CVal)
    (hne : l1 ≠ []) (hlen : 2 ≤ (l1 ++ l2).length)
    (hpre : ∀ i, i + 1 < l1.length → keyMem (underJoin "" (l1.take (i + 1))) conf = false)
    (hkey : keyMem (underJoin "" l1) conf = true) :
    find_name (l1 ++ l2) conf =
      (if l2.isEmpty then underJoin "" l1
       else match lookupD conf (underJoin "" l1) with
         | some (.dict es) => underJoin "" l1 ++ "." ++ find_name l2 (.dict es)
         | _ => joinDots (underJoin "" l1 :: l2)) := by
  have hnotlt : ¬((l1 ++ l2).length < 2) := by omega
  rw [find_name, if_neg hnotlt, findNameGo_first_match l1 l2 conf "" hne hpre hkey]

/-! Lemmas about the identified-tree model of merge allocation. -/

mutual
theorem labelTree_le : ∀ (v : CVal) (n : Nat), n ≤ (labelTree v n).2
  | .dict es, n => by
      have h := labelEntries_le es (n + 1)
      simp only [labelTree]
      omega
  | .str s, n => by simp [labelTree]
  | .int m, n => by simp [labelTree]
  | .bool b, n => by simp [labelTree]
  | .null, n => by simp [labelTree]
  | .missing, n => by simp [labelTree]

theorem labelEntries_le : ∀ (es : List (String × CVal)) (n : Nat), n ≤ (labelEntries es n).2
  | [], n => by simp [labelEntries]
  | (k, v) :: rest, n => by
      have h1 := labelTree_le v n
      have h2 := labelEntries_le rest (labelTree v n).2
      simp only [labelEntries]
      omega
end

mutual
theorem labelTree_ids_ge : ∀ (v : CVal) (n : Nat) (i : Nat),
    i ∈ (labelTree v n).1.ids → n ≤ i
  | .dict es, n, i => by
      intro hi
      simp only [labelTree, ITree.ids] at hi
      rcases List.mem_cons.mp hi with h | h
      · omega
      · have := labelEntries_ids_ge es (n + 1) i h
        omega
  | .str s, n, i => by intro hi; simp [labelTree, ITree.ids] at hi; omega
  | .int m, n, i => by intro hi; simp [labelTree, ITree.ids] at hi; omega
  | .bool b, n, i => by intro hi; simp [labelTree, ITree.ids] at hi; omega
  | .null, n, i => by intro hi; simp [labelTree, ITree.ids] at hi; omega
  | .missing, n, i => by intro hi; simp [labelTree, ITree.ids] at hi; omega

theorem labelEntries_ids_ge : ∀ (es : List (String × CVal)) (n : Nat) (i : Nat),
    i ∈ ITree.ids.idsEntries (labelEntries es n).1 → n ≤ i
  | [], n, i => by intro hi; simp [labelEntries, ITree.ids.idsEntries] at hi
  | (k, v) :: rest, n, i => by
      intro hi
      simp only [labelEntries, ITree.ids.idsEntries] at hi
      rcases List.mem_append.mp hi with h | h
      · exact labelTree_ids_ge v n i h
      · have h2 := labelEntries_ids_ge rest (labelTree v n).2 i h
        have h1 := labelTree_le v n
        omega
end

mutual
theorem strip_labelTree : ∀ (v : CVal) (n : Nat), (labelTree v n).1.strip = v
  | .dict es, n => by
      simp only [labelTree, ITree.strip]
      rw [strip_labelEntries es (n + 1)]
  | .str s, n => by simp [labelTree, ITree.strip]
  | .int m, n => by simp [labelTree, ITree.strip]
  | .bool b, n => by simp [labelTree, ITree.strip]
  | .null, n => by simp [labelTree, ITree.strip]
  | .missing, n => by simp [labelTree, ITree.strip]

theorem strip_labelEntries : ∀ (es : List (String × CVal)) (n : Nat),
    ITree.strip.stripEntries (labelEntries es n).1 = es
  | [], n => by simp [labelEntries, ITree.strip.stripEntries]
  | (k, v) :: rest, n => by
      simp only [labelEntries, ITree.strip.stripEntries]
      rw [strip_labelTree v n, strip_labelEntries rest (labelTree v n).2]

end

mutual
theorem setById_noop : ∀ (t : ITree) (i : Nat) (v : CVal), i ∉ t.ids →
    t.setById i v = t
  | .leaf id w, i, v => by
      intro hi
      simp only [ITree.ids, List.mem_singleton] at hi
      have hne : id ≠ i := by intro h; exact hi h.symm
      simp [ITree.setById, hne]
  | .node id es, i, v => by
      intro hi
      simp only [ITree.ids, List.mem_cons] at hi
      push_neg at hi
      have hne : id ≠ i := by intro h; exact hi.1 h.symm
      simp only [ITree.setById, if_neg hne]
      rw [setEntries_noop es i v hi.2]

theorem setEntries_noop : ∀ (es : IEntries) (i : Nat) (v : CVal),
    i ∉ ITree.ids.idsEntries es → ITree.setById.setEntries i v es = es
  | .nil, i, v => by intro _; rfl
  | .cons k t rest, i, v => by
      intro hi
      simp only [ITree.ids.idsEntries, List.mem_append] at hi
      push_neg at hi
      simp only [ITree.setById.setEntries]
      rw [setById_noop t i v hi.1, setEntries_noop rest i v hi.2]
end


/-! Lemmas about schema-derived defaults, the association maps and the
registration paths. -/

theorem preparePydFields_defaults (fields : List PydField) (path : String) :
    (preparePydFields fields path).1 =
      fields.map (fun f => (f.name,
        match f.default with
        | some d => d
        | none => if f.required then CVal.missing else CVal.null)) := by
  induction fields with
  | nil => simp [preparePydFields]
  | cons f rest ih =>
      obtain ⟨name, default, required, description, sub⟩ := f
      cases default <;> cases required <;> cases description <;> cases sub <;>
        simp [preparePydFields, ih, PydField.name, PydField.default, PydField.required]

theorem preparePydFields_helpers (fields : List PydField) (path : String)
    (f : PydField) (d : String) (hf : f ∈ fields) (hd : f.description = some d) :
    (path ++ f.name, d) ∈ (preparePydFields fields path).2 := by
  induction fields with
  | nil => cases hf
  | cons g rest ih =>
      obtain ⟨name, default, required, description, sub⟩ := g
      rcases List.mem_cons.mp hf with h | h
      · rw [h] at hd
        simp only [PydField.description] at hd
        rw [h]
        simp only [PydField.name]
        subst hd
        cases default <;> cases required <;> cases sub <;> simp [preparePydFields]
      · have hmem := ih h
        cases default <;> cases required <;> cases description <;> cases sub <;>
          simp [preparePydFields, hmem]

theorem lookupAssoc_setAssoc_self {α β : Type} [DecidableEq α]
    (l : List (α × β)) (k : α) (v : β) :
    lookupAssoc (setAssoc l k v) k = some v := by
  induction l with
  | nil => simp [setAssoc, lookupAssoc]
  | cons kv rest ih =>
      obtain ⟨k', v'⟩ := kv
      by_cases h : k' = k <;> simp [setAssoc, lookupAssoc, h, ih]

theorem lookupAssoc_filter_ne {β : Type} (m : List (TypeId × β)) (id : TypeId) :
    lookupAssoc (m.filter (fun kv => !decide (kv.1 = id))) id = none := by
  induction m with
  | nil => rfl
  | cons kv rest ih =>
      obtain ⟨k, v⟩ := kv
      by_cases h : k = id
      · simpa [List.filter_cons, h] using ih
      · simpa [List.filter_cons, h, lookupAssoc] using ih

theorem updateAssoc_nil {α β : Type} [DecidableEq α] (l : List (α × β)) :
    updateAssoc l [] = l := rfl

/-- The state returned by `Configuration.setup_configuration` for a pydantic
class argument, spelled out: the Except computation succeeds whenever the
type-value cache is still a dict, the registration is recorded before
anything else, and the cache entry for the type is dropped. -/
theorem setup_configuration_typ_eq (c : CVal) (tp : List (TypeId × Option String))
    (tv : List (TypeId × CVal)) (hs : List (String × String)) (id : TypeId)
    (m : PydModel) (helpers : List (String × String)) (p : String) :
    Configuration.setup_configuration ⟨c, tp, .tdict tv, hs⟩ (.typ id m) helpers p =
      (let pfx' := if p ≠ "" ∧ !endsWithDot p then p ++ "." else p
       let config := prepareCfg (.dict (prepare_pydantic m pfx').1)
       let pydHelpers := (prepare_pydantic m pfx').2
       let config' := if p ≠ "" then addPfx config (rstripDots pfx') else config
       let helpers' := if p ≠ "" then helpers.map (fun kv => (pfx' ++ kv.1, kv.2))
         else helpers
       .ok {
         c := merge2 c config',
         typePath := setAssoc tp id (if (lookupAssoc tp id).isSome then none else some p),
         typeValue := .tdict (tv.filter (fun kv => kv.1 ≠ id)),
         helpers := updateAssoc (updateAssoc hs pydHelpers) helpers' }) := by
  by_cases hp : p = ""
  · subst hp
    simp [Configuration.setup_configuration, tvPop, Bind.bind, Except.bind, pure, Except.pure]
  · by_cases hend : endsWithDot p = true
    all_goals
      simp [Configuration.setup_configuration, tvPop, Bind.bind, Except.bind, pure, Except.pure,
        hp, hend]

/-- The state returned by `Configuration.setup_configuration` for plain
native mapping data registered without a key-path: no type is registered, no
helper validation happens, and the helpers argument is applied verbatim. -/
theorem setup_configuration_raw_eq (st : Configuration) (es : List (String × CVal))
    (helpers : List (String × String)) :
    Configuration.setup_configuration st (.raw (.dict es)) helpers "" =
      .ok { st with
        c := merge2 st.c (prepareCfg (.dict es)),
        helpers := updateAssoc st.helpers helpers } := by
  have hdict : (prepareCfg (.dict es)).isDict = true := by
    show (finishDC (prepareEntries es)).isDict = true
    exact isDict_finishDC (prepareEntries es)
  simp [Configuration.setup_configuration, Bind.bind, Except.bind, pure, Except.pure, hdict,
    updateAssoc_nil]

/-! The claims. -/

/-- C1 counterexample: the key `server` is set by the registered defaults
and again by a configuration file, both to mappings; the merged value is
the recursive merge of the two mappings (union of sub-keys, spec 4.2), not
the later source's value, so "for every key set by several sources the
later source's value wins" fails for mapping-valued keys. -/
theorem C1_source_precedence_counterexample :
    selectT (Application.setupConfiguration precedenceDefaults appMeta [precedenceFileFrag]
        none []) "server"
      = some (.dict [("url", .str "u"), ("port", .int 2)])
    ∧ selectT precedenceFileFrag "server" = some (.dict [("port", .int 2)])
    ∧ selectT (Application.setupConfiguration precedenceDefaults appMeta [precedenceFileFrag]
        none []) "server" ≠ selectT precedenceFileFrag "server" := by decide

/-- C1 (amended): `Application.setup_configuration` merges the sources in
the fixed order registered defaults, application metadata, configuration
files, environment fragment, command-line fragments; a non-mapping value
set by any source wins over every earlier source provided no later source
sets the same key or replaces one of its proper ancestors with a
non-mapping value (mapping values are instead merged recursively, key by
key); command-line fragments come last, so a non-mapping value set by the
final command-line fragment unconditionally wins; and the end-to-end
scenario defaults/file/env/CLI for `server.url` yields the CLI value. -/
theorem C1_source_precedence :
    (∀ (defaultC appC : CVal) (files : List CVal) (envFrag : Option CVal)
        (cli : List CVal) (L1 L2 : List CVal) (x : CVal) (ps : List String) (v : CVal),
      Application.getConfigurations defaultC appC files envFrag cli = L1 ++ x :: L2 →
      selectParts x ps = some v → v.isDict = false →
      (∀ y ∈ L2, skipsPathB y ps = true) →
      selectParts (Application.setupConfiguration defaultC appC files envFrag cli)
        ps = some v)
    ∧ (∀ (defaultC appC : CVal) (files : List CVal) (envFrag : Option CVal)
        (cli : List CVal) (cliLast : CVal) (ps : List String) (v : CVal),
      selectParts cliLast ps = some v → v.isDict = false →
      selectParts
        (Application.setupConfiguration defaultC appC files envFrag (cli ++ [cliLast]))
        ps = some v)
    ∧ selectT (Application.setupConfiguration serverDefaults appMeta [serverFile]
        (some serverEnv) [serverCli]) "server.url" = some (.str "http://cli") := by
  refine ⟨?_, ?_, by decide⟩
  · intro dC aC files env cli L1 L2 x ps v hlist hsel hdict hskip
    rw [Application.setupConfiguration, hlist]
    exact selectParts_mergeList_middle dC L1 x L2 ps v hsel hdict hskip
  · intro dC aC files env cli cliLast ps v hsel hdict
    have hlist : Application.getConfigurations dC aC files env (cli ++ [cliLast]) =
        ([dC, aC] ++ files ++ env.toList ++ cli) ++ [cliLast] := by
      simp [Application.getConfigurations]
    rw [Application.setupConfiguration, hlist]
    exact selectParts_mergeList_last _ _ _ _ _ hsel hdict

/-- Witness for C1: the intermediate tier (a file value beating the
registered defaults, with a later environment fragment that touches
neither `server.url` nor its ancestors) through the general part, and the
end-to-end scenario's command-line fragment through the CLI-last part. -/
theorem C1_source_precedence_witness :
    (Application.getConfigurations serverDefaults appMeta [serverFile] (some envOther) []
        = [serverDefaults, appMeta] ++ serverFile :: [envOther]
      ∧ selectParts serverFile ["server", "url"] = some (.str "http://file")
      ∧ (CVal.str "http://file").isDict = false
      ∧ skipsPathB envOther ["server", "url"] = true)
    ∧ selectParts (Application.setupConfiguration serverDefaults appMeta [serverFile]
        (some envOther) []) ["server", "url"] = some (.str "http://file")
    ∧ (selectParts serverCli ["server", "url"] = some (.str "http://cli")
      ∧ (CVal.str "http://cli").isDict = false)
    ∧ selectParts (Application.setupConfiguration serverDefaults appMeta [serverFile]
        (some serverEnv) ([] ++ [serverCli])) ["server", "url"]
        = some (.str "http://cli") := by
  refine ⟨⟨by decide, by decide, by decide, by decide⟩, ?_, ⟨by decide, by decide⟩, ?_⟩
  · exact C1_source_precedence.1 serverDefaults appMeta [serverFile] (some envOther) []
      [serverDefaults, appMeta] [envOther] serverFile ["server", "url"] (.str "http://file")
      (by decide) (by decide) (by decide)
      (by intro y hy; simp only [List.mem_singleton] at hy; subst hy; decide)
  · exact C1_source_precedence.2.1 serverDefaults appMeta [serverFile] (some serverEnv) []
      serverCli ["server", "url"] (.str "http://cli") (by decide) (by decide)

/-- C2 counterexample: the claim says the longest existing-key match wins at
each step, but in a tree holding both keys `my` and `my_test` the loop of
`_find_name` returns at the first (shortest) match, resolving parts
`[my, test]` to `my.test` and not to the longer existing key `my_test`. -/
theorem C2_find_name_counterexample :
    find_name ["my", "test"] envShortTree = "my.test"
    ∧ keyMem "my" envShortTree = true
    ∧ keyMem "my_test" envShortTree = true
    ∧ find_name ["my", "test"] envShortTree ≠ "my_test" := by decide

/-- C2 (amended): `_find_name` resolves parts by greedy segment-joining
where at each step the first (shortest) accumulated `'_'`-join matching an
existing key wins (not the longest); when no accumulated join matches any
key, all parts are joined with `'.'`; the two reference scenarios
`[my, test, a]` and `[test, test, my, test]` resolve to `my_test.a` and
`test_test.my_test`. -/
theorem C2_find_name :
    find_name ["my", "test", "a"] envTestTree = "my_test.a"
    ∧ find_name ["test", "test", "my", "test"] envTestTree = "test_test.my_test"
    ∧ (∀ (parts : List String) (conf : CVal),
        (∀ i, i < parts.length → keyMem (underJoin "" (parts.take (i + 1))) conf = false) →
        find_name parts conf = joinDots parts)
    ∧ (∀ (l1 l2 : List String) (conf : CVal),
        l1 ≠ [] → 2 ≤ (l1 ++ l2).length →
        (∀ i, i + 1 < l1.length → keyMem (underJoin "" (l1.take (i + 1))) conf = false) →
        keyMem (underJoin "" l1) conf = true →
        find_name (l1 ++ l2) conf =
          (if l2.isEmpty then underJoin "" l1
           else match lookupD conf (underJoin "" l1) with
             | some (.dict es) => underJoin "" l1 ++ "." ++ find_name l2 (.dict es)
             | _ => joinDots (underJoin "" l1 :: l2))) :=
  ⟨by decide, by decide, find_name_no_match, find_name_first_match⟩

/-- Witness for C2: the no-match fallback on unknown parts and the
first-match rule on the tree holding both `my` and `my_test`. -/
theorem C2_find_name_witness :
    ((∀ i, i < (["zz", "yy"] : List String).length →
        keyMem (underJoin "" ((["zz", "yy"] : List String).take (i + 1))) envTestTree = false)
      ∧ find_name ["zz", "yy"] envTestTree = joinDots ["zz", "yy"])
    ∧ (keyMem (underJoin "" ["my"]) envShortTree = true
      ∧ find_name (["my"] ++ ["test"]) envShortTree =
          (if (["test"] : List String).isEmpty then underJoin "" ["my"]
           else match lookupD envShortTree (underJoin "" ["my"]) with
             | some (.dict es) => underJoin "" ["my"] ++ "." ++ find_name ["test"] (.dict es)
             | _ => joinDots (underJoin "" ["my"] :: ["test"]))) :=
  by
  refine ⟨⟨?_, C2_find_name.2.2.1 ["zz", "yy"] envTestTree ?_⟩,
    ⟨by decide, C2_find_name.2.2.2 ["my"] ["test"] envShortTree (by decide) (by decide)
      ?_ (by decide)⟩⟩
  · intro i hi
    simp only [List.length_cons, List.length_nil] at hi
    interval_cases i <;> decide
  · intro i hi
    simp only [List.length_cons, List.length_nil] at hi
    interval_cases i <;> decide
  · intro i hi
    simp at hi

/-- C3 counterexample: on the tree `{"req": '???'}` the string-key get of
`Configuration.get` raises the plain key-not-found `KeyError` (select maps
the missing node to the supplied sentinel default), not a distinct
`MissingMandatoryValue`. -/
theorem C3_mandatory_counterexample :
    selectT mandatoryTree "req" = some CVal.missing
    ∧ configGet mandatoryTree "req" none = .error (.keyError "req")
    ∧ configGet mandatoryTree "req" none ≠ .error (.missingMandatoryValue "req") := by
  decide

/-- C3 (amended): for the tree mapping `req` to the MandatoryMarker,
`get("req")` raises the plain `KeyError "No value for: req"` (not a
distinct missing-mandatory error), `get("req", default="x")` returns `"x"`,
and after merging `{"req": "concrete"}` on top, `get("req")` returns
`"concrete"` without error. -/
theorem C3_mandatory_get :
    configGet mandatoryTree "req" none = .error (.keyError "req")
    ∧ configGet mandatoryTree "req" (some (.str "x")) = .ok (.str "x")
    ∧ configGet (merge2 mandatoryTree (.dict [("req", .str "concrete")])) "req" none
        = .ok (.str "concrete") := by decide

/-- C4 counterexample: with `A = {"k": {"x": 1}}`, `B = {}` and
`C = {"k": {"y": 2}}` the key `k` is present in A and C but not B, yet
`merge(A,B,C)["k"]` is the recursive merge `{"x": 1, "y": 2}`, not
`C["k"]`. -/
theorem C4_merge_counterexample :
    keyMem "k" precATree = true
    ∧ keyMem "k" precBTree = false
    ∧ keyMem "k" precCTree = true
    ∧ lookupD (mergeList precATree [precBTree, precCTree]) "k" ≠ lookupD precCTree "k" := by
  decide

/-- C4 (amended): `merge(merge(A,B),C)` equals the n-ary `merge(A,B,C)`
(the n-ary merge is the left fold of the binary merge), and for a key
present in A and C but not B the last source wins whenever the two values
are not both mappings (mappings merge recursively instead of being
replaced). -/
theorem C4_merge_associativity_precedence :
    (∀ (a b c : CVal), merge2 (merge2 a b) c = mergeList a [b, c])
    ∧ (∀ (a b c : CVal) (k : String) (va vc : CVal),
        lookupD a k = some va → lookupD b k = none → lookupD c k = some vc →
        (va.isDict = false ∨ vc.isDict = false) →
        lookupD (mergeList a [b, c]) k = some vc) := by
  constructor
  · intro a b c
    rfl
  · intro a b c k va vc ha hb hc hv
    show lookupD (merge2 (merge2 a b) c) k = some vc
    cases a with
    | dict aes =>
        cases c with
        | dict ces =>
            simp only [lookupD] at ha hc
            cases b with
            | dict bes =>
                simp only [lookupD] at hb
                have hab := lookupD_merge2_dict k aes bes
                rw [ha, hb] at hab
                simp only [lookupD, merge2] at hab
                have h2 := lookupD_merge2_dict k
                  (mergeEntries aes bes ++ bes.filter (fun kv => (lookupE kv.1 aes).isNone)) ces
                rw [hab, hc] at h2
                simp only [merge2] at h2 ⊢
                rw [h2, merge2_eq_right va vc hv]
            | str s => simp [merge2, lookupD, hc]
            | int n => simp [merge2, lookupD, hc]
            | bool bb => simp [merge2, lookupD, hc]
            | null => simp [merge2, lookupD, hc]
            | missing => simp [merge2, lookupD, hc]
        | str s => simp [lookupD] at hc
        | int n => simp [lookupD] at hc
        | bool bb => simp [lookupD] at hc
        | null => simp [lookupD] at hc
        | missing => simp [lookupD] at hc
    | str s => simp [lookupD] at ha
    | int n => simp [lookupD] at ha
    | bool bb => simp [lookupD] at ha
    | null => simp [lookupD] at ha
    | missing => simp [lookupD] at ha

/-- Witness for C4 on scalar values: the last source providing `k` wins. -/
theorem C4_merge_witness :
    (lookupD (CVal.dict [("k", .int 1)]) "k" = some (.int 1)
      ∧ lookupD (CVal.dict []) "k" = none
      ∧ lookupD (CVal.dict [("k", .int 2)]) "k" = some (.int 2)
      ∧ (CVal.int 1).isDict = false)
    ∧ lookupD (mergeList (CVal.dict [("k", .int 1)]) [CVal.dict [], CVal.dict [("k", .int 2)]])
        "k" = some (.int 2) :=
  ⟨by decide,
    C4_merge_associativity_precedence.2 (CVal.dict [("k", .int 1)]) (CVal.dict [])
      (CVal.dict [("k", .int 2)]) "k" (.int 1) (.int 2) (by decide) (by decide) (by decide)
      (Or.inl (by decide))⟩

/-- C5: the schema-derived default sub-tree maps every field to its
explicit default when one exists, to the MandatoryMarker `'???'` when the
field has no default and is required, and to `None` otherwise; each field
description becomes a helpers entry at the field's full path; for a schema
with `x_num: int = 0` (and only defaulted or optional fields, so that
resolution can succeed), `get(SchemaType).x_num` is `0` before any
override and `1` after merging `{"x_num": 1}`; and on the schema that
still holds the required-without-default field, the type-keyed `get`
raises `MissingMandatoryValue` for `x_req` when `OmegaConf.to_object`
resolves the sub-tree. -/
theorem C5_schema_defaults :
    (∀ (fields : List PydField) (path : String),
      (prepare_pydantic (.mk fields) path).1 =
        fields.map (fun f => (f.name,
          match f.default with
          | some d => d
          | none => if f.required then CVal.missing else CVal.null)))
    ∧ (∀ (fields : List PydField) (path : String) (f : PydField) (d : String),
        f ∈ fields → f.description = some d →
        (path ++ f.name, d) ∈ (prepare_pydantic (.mk fields) path).2)
    ∧ lookupD typedState1.c "x_num" = some (.int 0)
    ∧ lookupD typedState1.c "x_req" = some CVal.missing
    ∧ lookupD typedState1.c "x_opt" = some CVal.null
    ∧ lookupAssoc typedState1.helpers "x_name" = some "Some name"
    ∧ (Configuration.getType typedGetState1 0 none).map (fun pr => lookupD pr.1 "x_num")
        = .ok (some (.int 0))
    ∧ (Configuration.getType typedGetState2 0 none).map (fun pr => lookupD pr.1 "x_num")
        = .ok (some (.int 1))
    ∧ Configuration.getType typedState1 0 none
        = .error (.missingMandatoryValue "x_req") := by
  refine ⟨?_, ?_, by decide, by decide, by decide, by decide, by decide, by decide, by decide⟩
  · intro fields path
    simp only [prepare_pydantic]
    exact preparePydFields_defaults fields path
  · intro fields path f d hf hd
    simp only [prepare_pydantic]
    exact preparePydFields_helpers fields path f d hf hd

/-- Witness for C5 on the concrete schema: the derived defaults and the
description helper of `x_name`. -/
theorem C5_schema_defaults_witness :
    (prepare_pydantic (.mk schemaTypedFields) "").1 =
      [("x_name", CVal.str "me"), ("x_num", CVal.int 0),
        ("x_req", CVal.missing), ("x_opt", CVal.null)]
    ∧ ("" ++ (PydField.mk "x_name" (some (.str "me")) true (some "Some name") none).name,
        "Some name") ∈ (prepare_pydantic (.mk schemaTypedFields) "").2 := by
  constructor
  · rw [C5_schema_defaults.1 schemaTypedFields ""]
    decide
  · exact C5_schema_defaults.2.1 schemaTypedFields ""
      (.mk "x_name" (some (.str "me")) true (some "Some name") none) "Some name"
      (by rw [schemaTypedFields]; exact List.mem_cons_self _ _) rfl

/-- C6: `OmegaConf.merge` is non-mutating: the merged result carries the
merged contents, consists only of freshly allocated nodes (no id shared
with either input), and mutating any node of the result leaves both input
trees unchanged. -/
theorem C6_merge_no_alias :
    ∀ (a b : ITree) (n : Nat),
      (∀ i ∈ a.ids, i < n) → (∀ i ∈ b.ids, i < n) →
      (mergeAlloc a b n).strip = merge2 a.strip b.strip
      ∧ (∀ i ∈ (mergeAlloc a b n).ids, i ∉ a.ids ∧ i ∉ b.ids)
      ∧ (∀ i ∈ (mergeAlloc a b n).ids, ∀ v, a.setById i v = a ∧ b.setById i v = b) := by
  intro a b n ha hb
  have hfresh : ∀ i ∈ (mergeAlloc a b n).ids, n ≤ i := by
    intro i hi
    exact labelTree_ids_ge (merge2 a.strip b.strip) n i hi
  have hnot : ∀ i ∈ (mergeAlloc a b n).ids, i ∉ a.ids ∧ i ∉ b.ids := by
    intro i hi
    constructor
    · intro hia
      have := ha i hia
      have := hfresh i hi
      omega
    · intro hib
      have := hb i hib
      have := hfresh i hi
      omega
  refine ⟨strip_labelTree (merge2 a.strip b.strip) n, hnot, ?_⟩
  intro i hi v
  exact ⟨setById_noop a i v (hnot i hi).1, setById_noop b i v (hnot i hi).2⟩

/-- Witness for C6 on two concrete identified trees. -/
theorem C6_merge_no_alias_witness :
    ((∀ i ∈ aliasTreeA.ids, i < 4) ∧ (∀ i ∈ aliasTreeB.ids, i < 4))
    ∧ ((mergeAlloc aliasTreeA aliasTreeB 4).strip = merge2 aliasTreeA.strip aliasTreeB.strip
      ∧ (∀ i ∈ (mergeAlloc aliasTreeA aliasTreeB 4).ids, i ∉ aliasTreeA.ids ∧ i ∉ aliasTreeB.ids)
      ∧ (∀ i ∈ (mergeAlloc aliasTreeA aliasTreeB 4).ids, ∀ v,
          aliasTreeA.setById i v = aliasTreeA ∧ aliasTreeB.setById i v = aliasTreeB)) :=
  ⟨⟨by decide, by decide⟩, C6_merge_no_alias aliasTreeA aliasTreeB 4 (by decide) (by decide)⟩

/-- C7: the first registration of a schema type binds it to the
registration's key-path, a second registration of the same type sets the
binding to `None` (ambiguous), and a type-keyed get with no default then
fails closed with a key-not-found error. -/
theorem C7_type_binding :
    ∀ (c : CVal) (tp : List (TypeId × Option String)) (tv : List (TypeId × CVal))
      (hs helpers helpers' : List (String × String)) (id : TypeId) (m m' : PydModel)
      (p p' : String) (st1 st2 : Configuration),
      lookupAssoc tp id = none →
      Configuration.setup_configuration ⟨c, tp, .tdict tv, hs⟩ (.typ id m) helpers p
        = .ok st1 →
      Configuration.setup_configuration st1 (.typ id m') helpers' p' = .ok st2 →
      lookupAssoc st1.typePath id = some (some p)
      ∧ lookupAssoc st2.typePath id = some none
      ∧ Configuration.getType st2 id none = .error (.keyErrorType id) := by
  intro c tp tv hs helpers helpers' id m m' p p' st1 st2 hlk hset1 hset2
  rw [setup_configuration_typ_eq] at hset1
  simp only [hlk, Option.isSome_none, Bool.false_eq_true, if_false,
    Except.ok.injEq] at hset1
  subst hset1
  rw [setup_configuration_typ_eq] at hset2
  simp only [lookupAssoc_setAssoc_self, Option.isSome_some, if_true,
    Except.ok.injEq] at hset2
  subst hset2
  refine ⟨by simp [lookupAssoc_setAssoc_self], by simp [lookupAssoc_setAssoc_self], ?_⟩
  simp [Configuration.getType, lookupAssoc_filter_ne, lookupAssoc_setAssoc_self]

/-- Witness for C7 on a fresh configuration and type id `5`. -/
theorem C7_type_binding_witness :
    (lookupAssoc (Configuration.new).typePath 5 = none
      ∧ Configuration.setup_configuration Configuration.new (.typ 5 (.mk [])) [] "pp"
          = .ok ambigState1
      ∧ Configuration.setup_configuration ambigState1 (.typ 5 (.mk [])) [] "qq"
          = .ok ambigState2)
    ∧ (lookupAssoc ambigState1.typePath 5 = some (some "pp")
      ∧ lookupAssoc ambigState2.typePath 5 = some none
      ∧ Configuration.getType ambigState2 5 none = .error (.keyErrorType 5)) :=
  ⟨⟨by decide, by decide, by decide⟩,
    C7_type_binding (.dict []) [] [] [] [] [] 5 (.mk []) (.mk []) "pp" "qq"
      ambigState1 ambigState2 (by decide) (by decide) (by decide)⟩

/-- C8: the type-keyed value cache is broken.  On a configuration with type
`0` registered at path `p`, the first `get(T)` succeeds and then executes
`self.__type_value = value`, replacing the cache dict by the resolved value
itself; the second `get(T)` calls `.get` on that value and fails with
`AttributeError` instead of returning the cached result.  The attribute is
declared `MutableMapping[type, Any]` and is read with `.get` and `.pop`
elsewhere in the same class, so the assignment contradicts the code's own
declarations (`self.__type_value[key] = value` is the evident intent). -/
theorem C8_memoized_type_cache_bug :
    (Configuration.getType memoState 0 none).map (fun pr => pr.1)
      = .ok (.dict [("x", .int 1)])
    ∧ memoClobbered.typeValue = .clobbered (.dict [("x", .int 1)])
    ∧ Configuration.getType memoClobbered 0 none = .error .attributeError := by decide

/-- C9 counterexample: a helper key `a.b` whose full dotted path does not
exist in the supplied configuration is accepted silently (only the first
dotted segment `a` is checked against the top-level keys). -/
theorem C9_helper_validation_counterexample :
    selectT helperConf "a.b" = none
    ∧ moduleSetupConfiguration [] [] helperConf [("a.b", "d")]
        = .ok ([helperConf], [("a.b", "d")]) := by decide

/-- C9 (amended): the module-level `setup_configuration` validates only the
first dotted segment of each helper key against the top-level keys of the
supplied configuration — a helper whose first segment is not a top-level
key raises `ValueError` and leaves the helper map untouched, while helpers
under an existing top-level key are accepted even when the full path does
not exist; `Configuration.setup_configuration` performs no helper
validation at all. -/
theorem C9_helper_validation :
    (∀ (configs : List CVal) (hstate : List (String × String)) (conf : CVal)
        (helpers : List (String × String)) (kv : String × String),
      kv ∈ helpers → keyMem (splitDots kv.1).headI conf = false →
      moduleSetupConfiguration configs hstate conf helpers = .error .valueError)
    ∧ (∀ (configs : List CVal) (hstate : List (String × String)) (conf : CVal)
        (helpers : List (String × String)),
      (∀ kv ∈ helpers, keyMem (splitDots kv.1).headI conf = true) →
      moduleSetupConfiguration configs hstate conf helpers
        = .ok (configs ++ [conf], updateAssoc hstate helpers))
    ∧ (∀ (st : Configuration) (es : List (String × CVal))
        (helpers : List (String × String)),
      Configuration.setup_configuration st (.raw (.dict es)) helpers "" =
        .ok { st with
          c := merge2 st.c (prepareCfg (.dict es)),
          helpers := updateAssoc st.helpers helpers }) := by
  refine ⟨?_, ?_, setup_configuration_raw_eq⟩
  · intro configs hstate conf helpers kv hmem hkey
    have hsome : (helpers.find? (fun kv => !keyMem (splitDots kv.1).headI conf)).isSome := by
      rw [List.find?_isSome]
      exact ⟨kv, hmem, by simp [hkey]⟩
    obtain ⟨y, hy⟩ := Option.isSome_iff_exists.mp hsome
    simp [moduleSetupConfiguration, hy]
  · intro configs hstate conf helpers hall
    have hnone : helpers.find? (fun kv => !keyMem (splitDots kv.1).headI conf) = none :=
      List.find?_eq_none.mpr (fun kv hkv => by simp [hall kv hkv])
    simp [moduleSetupConfiguration, hnone]

/-- Witness for C9: a missing top-level segment raises, an all-valid helper
map is accepted, and the internal setup applies a dangling helper without
validation. -/
theorem C9_helper_validation_witness :
    ((("zz", "d") ∈ [(("zz" : String), ("d" : String))]
        ∧ keyMem (splitDots "zz").headI helperConf = false)
      ∧ moduleSetupConfiguration [] [] helperConf [("zz", "d")] = .error .valueError)
    ∧ ((∀ kv ∈ [(("a" : String), ("d" : String))], keyMem (splitDots kv.1).headI helperConf = true)
      ∧ moduleSetupConfiguration [] [] helperConf [("a", "d")]
          = .ok ([helperConf], updateAssoc [] [("a", "d")]))
    ∧ Configuration.setup_configuration Configuration.new (.raw (.dict [("a", .int 1)]))
        [("zz", "d")] "" =
        .ok { Configuration.new with
          c := merge2 (Configuration.new).c (prepareCfg (.dict [("a", .int 1)])),
          helpers := updateAssoc (Configuration.new).helpers [("zz", "d")] } :=
  ⟨⟨⟨by decide, by decide⟩,
      C9_helper_validation.1 [] [] helperConf [("zz", "d")] ("zz", "d") (by decide) (by decide)⟩,
    ⟨by decide, C9_helper_validation.2.1 [] [] helperConf [("a", "d")] (by decide)⟩,
    C9_helper_validation.2.2 Configuration.new [("a", .int 1)] [("zz", "d")]⟩

/-- C10: `Configuration.__prepare_dictconfig` pops every dotted key from a
`DictConfig` argument while normalizing it into nested mappings, so a
`DictConfig` containing a dotted top-level key is not preserved unchanged
by the call: the dotted key is gone from the post-call tree. -/
theorem C10_prepare_dictconfig_pops_dotted :
    ∀ (es : List (String × CVal)) (k : String),
      k ∈ topKeys (.dict es) → hasDot k = true →
      k ∉ topKeys (prepareDictconfig true (.dict es))
      ∧ prepareDictconfig true (.dict es) ≠ .dict es := by
  intro es k hk hdot
  have h1 : k ∉ topKeys (prepareDictconfig true (.dict es)) := by
    intro hmem
    have hfalse : hasDot k = false := by
      refine mem_topKeys_finishDC k (prepareEntries es) ?_
      exact hmem
    rw [hdot] at hfalse
    cases hfalse
  exact ⟨h1, fun heq => h1 (by rw [heq]; exact hk)⟩

/-- Witness for C10: the dotted key `a.b` is popped from the concrete
dotted tree and the tree is changed. -/
theorem C10_prepare_dictconfig_witness :
    ("a.b" ∈ topKeys dottedTree ∧ hasDot "a.b" = true)
    ∧ ("a.b" ∉ topKeys (prepareDictconfig true dottedTree)
      ∧ prepareDictconfig true dottedTree ≠ dottedTree) :=
  ⟨⟨by decide, by decide⟩,
    C10_prepare_dictconfig_pops_dotted [("a.b", .dict [("c.d", .int 1), ("two", .int 2)])]
      "a.b" (by decide) (by decide)⟩

end Alphaconf
